import Mathlib

/-
Verification of the git-helper CLI's naming/validation/assembly engine
(cmd/create_commit.go, the config commands and the create-branch command).

Modelling conventions:
* Go strings are Lean `String`s; `len` on Go strings is modelled by
  `String.length` (the repository's data is ASCII, where byte length and
  character length coincide).
* `strings.ReplaceAll(s, " ", "-")` is a character-wise map (`replaceSpaces`).
* `strings.Split(s, "/")` is `splitSlash`; `regexp.MatchString` with the
  constant pattern `[A-Za-z]+-` followed by digits is the executable
  predicate `matchTicket` (the Go call can only return a regex-compile
  error, which is impossible for a constant valid pattern, so it is not
  modelled).
* Fallible Go functions returning `(T, error)` become `Except String T`
  (or `T × Option String` when the Go code returns both a value and an
  error); side effects (prompts, process invocations, file-system calls)
  are recorded in explicit effect traces, with the environment supplying
  the outcome of each external call.
-/

namespace GitHelper

/-- The character class of the regex fragment `[A-Za-z]`. -/
def isLetter (c : Char) : Bool := ('A' ≤ c && c ≤ 'Z') || ('a' ≤ c && c ≤ 'z')

/-- The character class of the regex fragment for a decimal digit. -/
def isDigit (c : Char) : Bool := '0' ≤ c && c ≤ '9'

/-- Character-wise model of `strings.ReplaceAll(s, " ", "-")`: every space
becomes a hyphen. -/
def replaceSpaces (s : String) : String :=
  ⟨s.data.map fun c => if c = ' ' then '-' else c⟩

/-- Model of Go's `strings.Split` on a single-character separator, at the
character-list level.  `strings.Split("", "/") = [""]`,
`strings.Split("/", "/") = ["", ""]`, `strings.Split("a/b", "/") = ["a", "b"]`. -/
def splitChars (sep : Char) : List Char → List (List Char)
  | [] => [[]]
  | c :: cs =>
    if c = sep then [] :: splitChars sep cs
    else
      match splitChars sep cs with
      | [] => [[c]]
      | h :: t => (c :: h) :: t

/-- `strings.Split(s, "/")` as a list of strings. -/
def splitSlash (s : String) : List String :=
  (splitChars '/' s.data).map fun l => ⟨l⟩

/-- Executable model of matching the anchored regex
`^[A-Za-z]+-` followed by one or more digits and end of string
(the ticket-id pattern).  Since `[A-Za-z]+` is the maximal letter prefix
(a hyphen is not a letter), the match is equivalent to: a nonempty letter
prefix, then a hyphen, then a nonempty all-digit suffix. -/
def matchTicket (s : String) : Bool :=
  let letters := s.data.takeWhile isLetter
  let rest := s.data.dropWhile isLetter
  !letters.isEmpty &&
    match rest with
    | c :: ds => c = '-' && !ds.isEmpty && ds.all isDigit
    | [] => false

/-- Error message of the (dead) no-separator branch of
`extractTicketFromBranch`. -/
def sepErrMsg : String := "branch name does not contain a \x27/\x27 separator"

/-- Error message of the pattern-mismatch branch of
`extractTicketFromBranch` (the Go code interpolates the candidate). -/
def mismatchErrMsg (ticket : String) : String :=
  "extracted ticket ID \x27" ++ ticket ++ "\x27 does not match expected pattern"

/-- `extractTicketFromBranch` from cmd/create_commit.go: split the branch
name on a slash, take the final segment, validate it against the ticket
pattern. -/
def extractTicketFromBranch (branch : String) : Except String String :=
  let parts := splitSlash branch
  if parts.length < 1 then .error sepErrMsg
  else
    let ticket := parts.getLastD ""
    if matchTicket ticket then .ok ticket
    else .error (mismatchErrMsg ticket)

/-- Maximum allowed length for the commit description (Go constant
`maxCommitDescLength`). -/
def maxCommitDescLength : Nat := 50

/-- Maximum allowed length for the branch description after formatting (Go
constant `maxDescLength`). -/
def maxDescLength : Nat := 30

/-- The commit-description validator passed to the survey Input prompt in
the create-commit command: `some errorMessage` rejects, `none` accepts.
The Go closure also rejects when the dynamic value is not a string; the
model's input is already a string, so that branch has no counterpart. -/
def commitDescValidator (s : String) : Option String :=
  if s.length = 0 then some "commit description cannot be empty"
  else if s.length > maxCommitDescLength then
    some "commit description too long (max 50 characters)"
  else none

/-- The branch-description validator inside `promptDescription` in the
create-branch command: formats spaces to hyphens, then rejects when the
formatted string is too long or empty. -/
def branchDescValidator (s : String) : Option String :=
  let formatted := replaceSpaces s
  if formatted.length > maxDescLength then
    some "description too long (max 30 characters after formatting)"
  else if formatted.length = 0 then some "description cannot be empty"
  else none

/-- Modelled from the spec (refinement target for the description-validation
claim, stated from the spec's words rather than the source):
`validateDescription(raw, maxLen)` replaces each space with a hyphen, then
rejects exactly when the result is empty or exceeds `maxLen`, returning the
normalized form otherwise. -/
def validateDescription (maxLen : Nat) (raw : String) : Except String String :=
  let normalized := replaceSpaces raw
  if normalized.length = 0 || normalized.length > maxLen then .error "FormatError"
  else .ok normalized

/-- Character-wise model of `strings.ToLower` (ASCII fragment):
`Char.toLower` lower-cases A-Z and fixes everything else. -/
def strToLower (s : String) : String := ⟨s.data.map Char.toLower⟩

/-- `assembleBranchName` from the create-branch command:
`lower(abbrev)-type-lower(description)/ticketId`
(Go `fmt.Sprintf` with `strings.ToLower` on the abbreviation and the
description, and the ticket appended verbatim). -/
def assembleBranchName (abbr branchType desc ticket : String) : String :=
  strToLower abbr ++ "-" ++ branchType ++ "-" ++ strToLower desc ++ "/" ++ ticket

/-- ASCII fragment of Go's `isSeparator` used by `strings.Title`: a rune is
a separator unless it is a letter, a digit or an underscore. -/
def goIsSeparator (c : Char) : Bool := !(isLetter c || isDigit c || c = '_')

/-- Worker for `strings.Title`: upper-case every character that follows a
separator, threading the previous character's separator status. -/
def titleMap : Bool → List Char → List Char
  | _, [] => []
  | prevSep, c :: cs =>
    (if prevSep then c.toUpper else c) :: titleMap (goIsSeparator c) cs

/-- ASCII model of Go's `strings.Title`: the initial previous character is a
space, hence a separator. -/
def titleCase (s : String) : String := ⟨titleMap true s.data⟩

/-- Modelled from the spec's word "capitalized": upper-case the first
character, leave the rest unchanged (refinement target for the
commit-verb fallback). -/
def capitalizeFirst (s : String) : String :=
  match s.data with
  | [] => ""
  | c :: cs => ⟨c.toUpper :: cs⟩

/-- The verb of the second commit message line (switch on the commit type
in the create-commit command). -/
def commitVerb (commitType : String) : String :=
  if commitType = "fix" then "Fixes"
  else if commitType = "feat" then "Closes"
  else titleCase commitType

/-- Assembly of the two commit-message lines (`firstMsg`/`secondMsg` in the
create-commit command). -/
def assembleCommitMessages (commitType product desc ticket : String) :
    String × String :=
  (commitType ++ "(" ++ product ++ "): " ++ desc,
   commitVerb commitType ++ " " ++ ticket)

/-- The configuration record: one field, the user's abbreviation
(`Config` in the config command file). -/
structure Config where
  abbreviation : String
deriving Repr, DecidableEq

/-- Outcome classes of `os.Open` on the configuration file. -/
inductive OpenErr
  | notExist
  | permissionDenied
  | other (msg : String)
deriving Repr, DecidableEq

/-- File-system side effects performed by the configuration store. -/
inductive FsEffect
  | mkdirAll (dir : String)
  | openRead (path : String)
  | createWrite (path : String)
deriving Repr, DecidableEq

/-- Whether a file-system effect writes to disk. -/
def FsEffect.isWrite : FsEffect → Bool
  | .createWrite _ => true
  | _ => false

/-- Environment supplying the outcomes of the OS calls the configuration
store makes: the home-directory lookup, the `MkdirAll`, and the
`os.Open` of the config file composed with the JSON decode of its
contents (`.ok (.ok cfg)`: opened and decoded; `.ok (.error e)`: opened
but the decoder failed; `.error oe`: the open itself failed). -/
structure FsEnv where
  homeDir : Except String String
  mkdirErr : Option String
  openResult : Except OpenErr (Except String Config)

/-- `configFilePath` from the config command file: joins the home directory
with the config directory, ensures the directory exists via `MkdirAll`,
and returns the path of config.json.  The returned trace records the
`MkdirAll` call. -/
def configFilePath (env : FsEnv) : Except String String × List FsEffect :=
  match env.homeDir with
  | .error e => (.error e, [])
  | .ok home =>
    let configDir := home ++ "/.git-helper-cli"
    match env.mkdirErr with
    | some e => (.error e, [.mkdirAll configDir])
    | none => (.ok (configDir ++ "/config.json"), [.mkdirAll configDir])

/-- `loadConfig` from the config command file.  Mirrors the Go control flow
exactly: a `configFilePath` failure is returned as an error; ANY failure
of `os.Open` (the Go code does not inspect the error) yields the
zero-value config with a nil error; a decode failure is returned as an
error. -/
def loadConfig (env : FsEnv) : (Config × Option String) × List FsEffect :=
  match configFilePath env with
  | (.error e, effs) => ((⟨""⟩, some e), effs)
  | (.ok path, effs) =>
    match env.openResult with
    | .error _ => ((⟨""⟩, none), effs ++ [.openRead path])
    | .ok (.error e) => ((⟨""⟩, some e), effs ++ [.openRead path])
    | .ok (.ok cfg) => ((cfg, none), effs ++ [.openRead path])

/-- Observable effects of the interactive commands: prompts shown to the
user, text printed, and invocations of the external git tool. -/
inductive Effect
  | prompt (message : String)
  | print (text : String)
  | runGit (args : List String)
deriving Repr, DecidableEq

/-- Whether an effect is an invocation of the external git tool. -/
def Effect.isGitRun : Effect → Bool
  | .runGit _ => true
  | _ => false

/-- Environment for one run of the create-commit command: the exit code of
`git diff --cached --quiet` (0 = clean index), the answers the survey
prompts eventually return (an Input prompt with a validator re-asks until
the validator accepts, so the returned description satisfies
`commitDescValidator`), the result of `git rev-parse --abbrev-ref HEAD`
(already trimmed), the confirmation answer, and whether `git commit`
exits successfully. -/
structure CommitEnv where
  stagedExitCode : Nat
  typeChoice : String
  productChoice : String
  descAnswer : String
  branchOut : Except String String
  confirmAnswer : Bool
  commitExitOk : Bool

/-- The RunE body of the create-commit command.  `cmd.Run()` on the staged
check returns a nil error exactly when the exit code is 0, in which case
the command fails immediately; otherwise it prompts for type, product and
description, derives the ticket from the current branch, assembles the
messages, asks for confirmation, and only then runs `git commit`. -/
def createCommitRun (env : CommitEnv) : Except String Unit × List Effect :=
  let checkEffs : List Effect := [.runGit ["diff", "--cached", "--quiet"]]
  if env.stagedExitCode = 0 then
    (.error "no staged changes found. Please stage your changes before committing",
     checkEffs)
  else
    let effs1 := checkEffs ++
      [.prompt "Select commit type:", .prompt "Select product:",
       .prompt "Enter a short commit description:"]
    let effs2 := effs1 ++ [.runGit ["rev-parse", "--abbrev-ref", "HEAD"]]
    match env.branchOut with
    | .error e => (.error e, effs2)
    | .ok branch =>
      match extractTicketFromBranch branch with
      | .error e =>
        (.error ("failed to extract JIRA ticket from branch \x27" ++ branch ++
                 "\x27: " ++ e), effs2)
      | .ok ticketID =>
        let msgs := assembleCommitMessages env.typeChoice env.productChoice
          env.descAnswer ticketID
        let effs3 := effs2 ++
          [.print "The following commit messages will be created:",
           .print ("Message 1: " ++ msgs.1), .print ("Message 2: " ++ msgs.2),
           .prompt "Do you want to proceed with this commit?"]
        if !env.confirmAnswer then
          (.ok (), effs3 ++ [.print "Commit creation aborted."])
        else
          let effs4 := effs3 ++ [.runGit ["commit", "-m", msgs.1, "-m", msgs.2]]
          if env.commitExitOk then
            (.ok (), effs4 ++ [.print "Commit created successfully!"])
          else (.error "failed to create commit", effs4)

/-- The mutable session state of the create-branch command: the configured
abbreviation and the three collected fields. -/
structure BranchState where
  abbr : String
  branchType : String
  description : String
  ticketID : String
deriving Repr, DecidableEq

/-- The branch name assembled from the current session state (the
`assembleBranchName` closure of the create-branch command). -/
def stateBranchName (st : BranchState) : String :=
  assembleBranchName st.abbr st.branchType st.description st.ticketID

/-- One interaction with the review menu: the option chosen, together with
the answer the follow-up prompt returns.  The survey Select only ever
returns one of the five menu options, so this type is exhaustive.  For an
edit, the carried string is the value the field's Input prompt returns
(hence accepted by that field's validator). -/
inductive MenuChoice
  | confirmCreate (answer : Bool)
  | editType (value : String)
  | editDesc (value : String)
  | editTicket (value : String)
  | cancel
deriving Repr, DecidableEq

/-- Result of the review loop: the branch was created (the external tool
was invoked with this name), the user cancelled, or the supplied
interaction trace ran out before the loop terminated. -/
inductive LoopOutcome
  | created (branchName : String)
  | cancelled
  | exhausted
deriving Repr, DecidableEq

/-- The review/edit loop of the create-branch command, driven by a finite
trace of menu interactions.  Each iteration shows the proposed name and
the menu; Confirm asks the final confirmation and invokes
`git checkout -b` only on an affirmative answer (a negative answer falls
through to the next iteration); each edit re-prompts exactly the one
field (the description being re-normalized with `replaceSpaces`, as in
the Go code after `promptDescription`); Cancel terminates with no git
invocation. -/
def reviewLoop : BranchState → List MenuChoice → LoopOutcome × List Effect
  | _, [] => (.exhausted, [])
  | st, choice :: rest =>
    let name := stateBranchName st
    let menuEffs : List Effect :=
      [.print ("Proposed branch name: " ++ name),
       .prompt "What would you like to do?"]
    match choice with
    | .confirmCreate answer =>
      let confEffs := menuEffs ++ [.prompt ("Create branch \x27" ++ name ++ "\x27?")]
      if answer then
        (.created name, confEffs ++ [.runGit ["checkout", "-b", name]])
      else
        ((reviewLoop st rest).1, confEffs ++ (reviewLoop st rest).2)
    | .editType v =>
      ((reviewLoop { st with branchType := v } rest).1,
       menuEffs ++ [.prompt "Choose branch type:"] ++
         (reviewLoop { st with branchType := v } rest).2)
    | .editDesc v =>
      ((reviewLoop { st with description := replaceSpaces v } rest).1,
       menuEffs ++
         [.prompt "Enter a short branch description (spaces will be replaced with hyphens):"] ++
         (reviewLoop { st with description := replaceSpaces v } rest).2)
    | .editTicket v =>
      ((reviewLoop { st with ticketID := v } rest).1,
       menuEffs ++ [.prompt "Enter the JIRA Ticket ID (e.g., CPRE-11347):"] ++
         (reviewLoop { st with ticketID := v } rest).2)
    | .cancel => (.cancelled, menuEffs ++ [.print "Aborting branch creation."])

/-! ### Helper lemmas -/

theorem replaceSpaces_length (s : String) : (replaceSpaces s).length = s.length := by
  cases s with
  | mk data => simp [replaceSpaces, String.length]

theorem splitChars_ne_nil (sep : Char) : ∀ l : List Char, splitChars sep l ≠ []
  | [] => by simp [splitChars]
  | c :: cs => by
    simp only [splitChars]
    split
    · simp
    · split
      · simp
      · simp

theorem splitSlash_ne_nil (s : String) : splitSlash s ≠ [] := by
  intro h
  unfold splitSlash at h
  exact splitChars_ne_nil '/' s.data (List.map_eq_nil_iff.mp h)

theorem extractTicket_eq (branch : String) :
    extractTicketFromBranch branch =
      if matchTicket ((splitSlash branch).getLastD "") then
        .ok ((splitSlash branch).getLastD "")
      else .error (mismatchErrMsg ((splitSlash branch).getLastD "")) := by
  have h1 : ¬ (splitSlash branch).length < 1 := by
    have := List.length_pos.mpr (splitSlash_ne_nil branch)
    omega
  simp only [extractTicketFromBranch, if_neg h1]

theorem mismatch_ne_sep (t : String) : mismatchErrMsg t ≠ sepErrMsg := by
  intro h
  have hl : (mismatchErrMsg t).length = sepErrMsg.length := by rw [h]
  have h1 : ("extracted ticket ID \x27" : String).length = 21 := by decide
  have h2 : ("\x27 does not match expected pattern" : String).length = 33 := by decide
  have h3 : sepErrMsg.length = 44 := by decide
  rw [mismatchErrMsg, String.length_append, String.length_append, h1, h2, h3] at hl
  omega

theorem takeWhile_letters (ds : List Char) : ∀ ls : List Char,
    ls.all isLetter = true →
    (ls ++ '-' :: ds).takeWhile isLetter = ls ∧
    (ls ++ '-' :: ds).dropWhile isLetter = '-' :: ds := by
  have hd : isLetter '-' = false := by decide
  intro ls h
  induction ls with
  | nil => simp [List.takeWhile_cons, List.dropWhile_cons, hd]
  | cons c cs ih =>
    simp only [List.all_cons, Bool.and_eq_true] at h
    simp [List.takeWhile_cons, List.dropWhile_cons, h.1, ih h.2]

/-- Sanity check that the executable `matchTicket` means exactly what the
ticket regex says: a nonempty run of letters, a hyphen, a nonempty run
of digits, and nothing else. -/
theorem matchTicket_iff (s : String) :
    matchTicket s = true ↔
    ∃ ls ds : List Char, s.data = ls ++ '-' :: ds ∧ ls ≠ [] ∧
      ls.all isLetter = true ∧ ds ≠ [] ∧ ds.all isDigit = true := by
  constructor
  · intro h
    simp only [matchTicket] at h
    rcases hr : s.data.dropWhile isLetter with _ | ⟨c, ds⟩
    · rw [hr] at h
      simp at h
    · rw [hr] at h
      simp only [Bool.and_eq_true, Bool.not_eq_true', List.isEmpty_eq_false,
        decide_eq_true_eq] at h
      refine ⟨s.data.takeWhile isLetter, ds, ?_, ?_, List.all_takeWhile, ?_, ?_⟩
      · rw [← h.2.1.1]
        rw [← hr]
        exact (List.takeWhile_append_dropWhile isLetter s.data).symm
      · exact h.1
      · exact h.2.1.2
      · exact h.2.2
  · rintro ⟨ls, ds, hdata, hne, hall, hdne, hdall⟩
    obtain ⟨ht, hdrop⟩ := takeWhile_letters ds ls hall
    simp only [matchTicket, hdata, ht, hdrop]
    simp [hne, hdne, hdall]

/-! ### Claim theorems -/

/-- C1: both description validators reject exactly when the
space-to-hyphen-normalized input is empty or longer than the limit
(30 for the branch description, 50 for the commit description), i.e.
both agree with the single spec-level `validateDescription`, one
parameterized by 30 and the other by 50. -/
theorem descValidators_same_function (raw : String) :
    ((branchDescValidator raw).isSome = true ↔
      (replaceSpaces raw).length = 0 ∨ (replaceSpaces raw).length > 30)
    ∧ ((commitDescValidator raw).isSome = true ↔
      (replaceSpaces raw).length = 0 ∨ (replaceSpaces raw).length > 50)
    ∧ (branchDescValidator raw).isNone = (validateDescription 30 raw).isOk
    ∧ (commitDescValidator raw).isNone = (validateDescription 50 raw).isOk := by
  refine ⟨?_, ?_, ?_, ?_⟩
  · simp only [branchDescValidator, maxDescLength]
    split_ifs <;> simp <;> omega
  · simp only [commitDescValidator, maxCommitDescLength, replaceSpaces_length]
    split_ifs <;> simp <;> omega
  · simp only [branchDescValidator, validateDescription, maxDescLength]
    split_ifs <;> simp_all [Except.isOk, Except.toBool] <;> omega
  · simp only [commitDescValidator, validateDescription, maxCommitDescLength,
      replaceSpaces_length]
    split_ifs <;> simp_all [Except.isOk, Except.toBool] <;> omega

/-- C3: `extractTicketFromBranch` takes the final slash-separated segment
as the candidate, returns it unchanged when it matches the ticket
pattern and fails otherwise; in particular on "feature/CPRE-123",
"CPRE-123" and "feature/bad ticket". -/
theorem extractTicket_spec :
    (∀ branch : String,
      extractTicketFromBranch branch =
        if matchTicket ((splitSlash branch).getLastD "") then
          .ok ((splitSlash branch).getLastD "")
        else .error (mismatchErrMsg ((splitSlash branch).getLastD "")))
    ∧ extractTicketFromBranch "feature/CPRE-123" = .ok "CPRE-123"
    ∧ extractTicketFromBranch "CPRE-123" = .ok "CPRE-123"
    ∧ extractTicketFromBranch "feature/bad ticket" =
        .error (mismatchErrMsg "bad ticket") :=
  ⟨extractTicket_eq, by rfl, by rfl, by rfl⟩

/-- C10: the no-separator error branch of `extractTicketFromBranch` is
dead code: splitting always yields at least one segment, so for every
branch name the function reaches the pattern check and returns either
the validated final segment or the pattern-mismatch error — never the
separator error. -/
theorem extractTicket_sep_branch_dead (branch : String) :
    (splitSlash branch).length ≥ 1
    ∧ extractTicketFromBranch branch ≠ .error sepErrMsg
    ∧ (extractTicketFromBranch branch = .ok ((splitSlash branch).getLastD "")
       ∨ extractTicketFromBranch branch =
          .error (mismatchErrMsg ((splitSlash branch).getLastD ""))) := by
  have hlen : 0 < (splitSlash branch).length :=
    List.length_pos.mpr (splitSlash_ne_nil branch)
  refine ⟨hlen, ?_, ?_⟩
  · rw [extractTicket_eq branch]
    split
    · intro h
      exact Except.noConfusion h
    · intro h
      exact mismatch_ne_sep _ (Except.error.inj h)
  · rw [extractTicket_eq branch]
    split
    · exact Or.inl rfl
    · exact Or.inr rfl

/-- C4: `assembleBranchName` returns exactly
`lower(abbrev)-type-lower(description)/ticketId`, with the ticket id
appended verbatim (not lower-cased); in particular, with abbreviation
"ds", type feat, normalized description of "Add login page" and ticket
"CPRE-999" it yields "ds-feat-add-login-page/CPRE-999". -/
theorem assembleBranchName_spec :
    (∀ abbr branchType desc ticket : String,
      assembleBranchName abbr branchType desc ticket =
        strToLower abbr ++ "-" ++ branchType ++ "-" ++ strToLower desc ++ "/" ++ ticket
      ∧ ∃ p, assembleBranchName abbr branchType desc ticket = p ++ "/" ++ ticket)
    ∧ assembleBranchName "ds" "feat" (replaceSpaces "Add login page") "CPRE-999" =
        "ds-feat-add-login-page/CPRE-999"
    ∧ assembleBranchName "DS" "fix" "User-Details-Window" "CPRE-11347" =
        "ds-fix-user-details-window/CPRE-11347" :=
  ⟨fun a t d k => ⟨rfl, ⟨strToLower a ++ "-" ++ t ++ "-" ++ strToLower d, rfl⟩⟩,
   by rfl, by rfl⟩

theorem titleMap_no_sep (cs : List Char)
    (h : cs.all (fun c => !goIsSeparator c) = true) : titleMap false cs = cs := by
  induction cs with
  | nil => rfl
  | cons c cs ih =>
    simp only [List.all_cons, Bool.and_eq_true] at h
    have hc : goIsSeparator c = false := by simpa using h.1
    simp [titleMap, hc, ih h.2]

/-- C5: the two commit-message lines are "type(product): description" and
"Verb ticketId", with Verb = "Fixes" for fix, "Closes" for feat, and
otherwise the type string run through the title-casing fallback, which
capitalizes the first character of any separator-free word; on
("fix", "lego", "typo in header", "CLI-34343") the result is
("fix(lego): typo in header", "Fixes CLI-34343"), and with type feat the
verb is "Closes". -/
theorem assembleCommitMessages_spec :
    (∀ commitType product desc ticket : String,
      assembleCommitMessages commitType product desc ticket =
        (commitType ++ "(" ++ product ++ "): " ++ desc,
         commitVerb commitType ++ " " ++ ticket))
    ∧ commitVerb "fix" = "Fixes"
    ∧ commitVerb "feat" = "Closes"
    ∧ (∀ t : String, t ≠ "fix" → t ≠ "feat" → commitVerb t = titleCase t)
    ∧ (∀ t : String, t.data.all (fun c => !goIsSeparator c) = true →
        titleCase t = capitalizeFirst t)
    ∧ assembleCommitMessages "fix" "lego" "typo in header" "CLI-34343" =
        ("fix(lego): typo in header", "Fixes CLI-34343")
    ∧ (assembleCommitMessages "feat" "lego" "typo in header" "CLI-34343").2 =
        "Closes CLI-34343" := by
  refine ⟨fun _ _ _ _ => rfl, rfl, rfl, ?_, ?_, by rfl, by rfl⟩
  · intro t h1 h2
    simp [commitVerb, h1, h2]
  · intro t h
    cases t with
    | mk data =>
      cases data with
      | nil => rfl
      | cons c cs =>
        simp only [List.all_cons, Bool.and_eq_true] at h
        have hc : goIsSeparator c = false := by simpa using h.1
        simp [titleCase, capitalizeFirst, titleMap, hc, titleMap_no_sep cs h.2]

/-- Witness for the commit-verb fallback: the hypothetical type "docs" is
neither fix nor feat and is a separator-free word, so its verb is the
capitalized echo "Docs". -/
theorem assembleCommitMessages_spec_witness : commitVerb "docs" = "Docs" := by
  have h4 := assembleCommitMessages_spec.2.2.2.1 "docs" (by decide) (by decide)
  have h5 := assembleCommitMessages_spec.2.2.2.2.1 "docs" (by decide)
  rw [h4, h5]
  rfl

/-- Concrete environment for `loadConfig`: the home directory resolves,
the config directory is created, and the configuration file exists but
`os.Open` fails with a permission error. -/
def unreadableEnv : FsEnv := ⟨.ok "/home/user", none, .error .permissionDenied⟩

/-- C2 (failing evaluation): with the configuration file present but
unreadable, `loadConfig` returns the empty configuration together with a
nil error — the open failure is silently swallowed rather than surfaced
as an I/O failure, because the Go code treats every `os.Open` error as
"no file yet" while its own comment only exempts a missing file. -/
theorem loadConfig_swallows_open_error :
    loadConfig unreadableEnv =
      ((⟨""⟩, none),
       [.mkdirAll "/home/user/.git-helper-cli",
        .openRead "/home/user/.git-helper-cli/config.json"]) := rfl

/-- C6: when `git diff --cached --quiet` exits 0 (nothing staged), the
create-commit command fails immediately with the no-staged-changes
error, having run only the staged check: no prompt is issued and no
further git command is executed. -/
theorem noStaged_fails_before_prompt (env : CommitEnv)
    (h : env.stagedExitCode = 0) :
    createCommitRun env =
      (.error "no staged changes found. Please stage your changes before committing",
       [.runGit ["diff", "--cached", "--quiet"]]) := by
  simp [createCommitRun, h]

/-- Witness for C6 at a fully concrete environment with a clean index. -/
theorem noStaged_fails_before_prompt_witness :
    createCommitRun ⟨0, "fix", "lego", "d", .ok "feature/CPRE-1", true, true⟩ =
      (.error "no staged changes found. Please stage your changes before committing",
       [.runGit ["diff", "--cached", "--quiet"]]) :=
  noStaged_fails_before_prompt
    ⟨0, "fix", "lego", "d", .ok "feature/CPRE-1", true, true⟩ rfl

/-- C9: loading the configuration is not read-only: whenever the home
directory resolves, `loadConfig` performs the `MkdirAll` on the per-user
config directory (via `configFilePath`), even though it never writes a
configuration record (its trace contains no write effect). -/
theorem loadConfig_creates_config_dir (env : FsEnv) (home : String)
    (h : env.homeDir = .ok home) :
    FsEffect.mkdirAll (home ++ "/.git-helper-cli") ∈ (loadConfig env).2
    ∧ ∀ e ∈ (loadConfig env).2, e.isWrite = false := by
  rcases env with ⟨hd, me, orr⟩
  simp only at h
  subst h
  rcases me with _ | e
  · rcases orr with oe | dr
    · simp [loadConfig, configFilePath, FsEffect.isWrite]
    · rcases dr with de | cfg <;> simp [loadConfig, configFilePath, FsEffect.isWrite]
  · simp [loadConfig, configFilePath, FsEffect.isWrite]

/-- Witness for C9: a concrete successful load still performs the
`MkdirAll` of the config directory. -/
theorem loadConfig_creates_config_dir_witness :
    FsEffect.mkdirAll "/home/user/.git-helper-cli" ∈
      (loadConfig ⟨.ok "/home/user", none, .ok (.ok ⟨"lv"⟩)⟩).2 :=
  (loadConfig_creates_config_dir ⟨.ok "/home/user", none, .ok (.ok ⟨"lv"⟩)⟩
    "/home/user" rfl).1

/-- C8: the staged-changes guard keys on the exit status alone: exit 0
produces the immediate no-staged-changes failure, and EVERY non-zero
exit (a genuinely dirty index, but also e.g. exit 128 from "not a git
repository") lets the flow proceed to the three prompts. -/
theorem stagedGuard_nonzero_proceeds (env : CommitEnv) :
    (env.stagedExitCode = 0 →
      createCommitRun env =
        (.error "no staged changes found. Please stage your changes before committing",
         [.runGit ["diff", "--cached", "--quiet"]]))
    ∧ (env.stagedExitCode ≠ 0 →
        (createCommitRun env).2.take 4 =
          [.runGit ["diff", "--cached", "--quiet"],
           .prompt "Select commit type:", .prompt "Select product:",
           .prompt "Enter a short commit description:"]) := by
  constructor
  · intro h
    simp [createCommitRun, h]
  · intro h
    simp only [createCommitRun, if_neg h]
    rcases hb : env.branchOut with e | branch
    · simp
    · rcases hx : extractTicketFromBranch branch with e | t
      · simp [hx]
      · simp only [hx]
        rcases env.confirmAnswer with _ | _
        · simp
        · rcases env.commitExitOk with _ | _ <;> simp

/-- Witness for C8: with exit code 128 (git itself failed, e.g. outside a
repository) the command still proceeds to prompting. -/
theorem stagedGuard_nonzero_proceeds_witness :
    (createCommitRun ⟨128, "fix", "lego", "d", .ok "feature/CPRE-1", true, true⟩).2.take 4 =
      [.runGit ["diff", "--cached", "--quiet"],
       .prompt "Select commit type:", .prompt "Select product:",
       .prompt "Enter a short commit description:"] :=
  (stagedGuard_nonzero_proceeds
    ⟨128, "fix", "lego", "d", .ok "feature/CPRE-1", true, true⟩).2 (by decide)

theorem reviewLoop_git_imp_created (st : BranchState) (cs : List MenuChoice) :
    (reviewLoop st cs).2.any Effect.isGitRun = true →
    ∃ name, (reviewLoop st cs).1 = .created name := by
  induction cs generalizing st with
  | nil => simp [reviewLoop]
  | cons c rest ih =>
    cases c with
    | confirmCreate answer =>
      cases answer with
      | false =>
        intro h
        simp only [reviewLoop, Bool.false_eq_true, if_false, List.any_append,
          List.any_cons, List.any_nil, Effect.isGitRun, Bool.or_eq_true] at h
        rcases h with (h | h) | h
        · exact absurd h (by simp)
        · exact absurd h (by simp)
        · exact ih st h
      | true =>
        intro _
        exact ⟨stateBranchName st, by simp [reviewLoop]⟩
    | editType v =>
      intro h
      simp only [reviewLoop, List.any_append, List.any_cons, List.any_nil,
        Effect.isGitRun, Bool.or_eq_true] at h
      rcases h with (h | h) | h
      · exact absurd h (by simp)
      · exact absurd h (by simp)
      · exact ih _ h
    | editDesc v =>
      intro h
      simp only [reviewLoop, List.any_append, List.any_cons, List.any_nil,
        Effect.isGitRun, Bool.or_eq_true] at h
      rcases h with (h | h) | h
      · exact absurd h (by simp)
      · exact absurd h (by simp)
      · exact ih _ h
    | editTicket v =>
      intro h
      simp only [reviewLoop, List.any_append, List.any_cons, List.any_nil,
        Effect.isGitRun, Bool.or_eq_true] at h
      rcases h with (h | h) | h
      · exact absurd h (by simp)
      · exact absurd h (by simp)
      · exact ih _ h
    | cancel =>
      intro h
      simp [reviewLoop, Effect.isGitRun] at h

theorem reviewLoop_created_imp_confirm (st : BranchState) (cs : List MenuChoice)
    (name : String) :
    (reviewLoop st cs).1 = .created name → MenuChoice.confirmCreate true ∈ cs := by
  induction cs generalizing st with
  | nil => simp [reviewLoop]
  | cons c rest ih =>
    cases c with
    | confirmCreate answer =>
      cases answer with
      | true => exact fun _ => List.mem_cons_self _ _
      | false =>
        intro h
        simp only [reviewLoop, Bool.false_eq_true, if_false] at h
        exact List.mem_cons_of_mem _ (ih st h)
    | editType v =>
      intro h
      simp only [reviewLoop] at h
      exact List.mem_cons_of_mem _ (ih _ h)
    | editDesc v =>
      intro h
      simp only [reviewLoop] at h
      exact List.mem_cons_of_mem _ (ih _ h)
    | editTicket v =>
      intro h
      simp only [reviewLoop] at h
      exact List.mem_cons_of_mem _ (ih _ h)
    | cancel =>
      intro h
      simp [reviewLoop] at h

theorem reviewLoop_replicate_neg (st : BranchState) (n : Nat) :
    (reviewLoop st (List.replicate n (.confirmCreate false) ++
      [.confirmCreate true])).1 = .created (stateBranchName st) := by
  induction n with
  | zero => simp [reviewLoop]
  | succ n ih =>
    simp only [List.replicate_succ, List.cons_append, reviewLoop,
      Bool.false_eq_true, if_false]
    exact ih

/-- C7: in the branch-creation review loop the git tool runs only when the
loop terminates in the created state, which requires a Confirm choice
answered affirmatively; that choice plus affirmative answer does create;
a negative final confirmation falls back to the menu with the state
unchanged; each edit choice updates exactly its one field (the
description re-normalized) and returns to the menu; Cancel terminates
with no git invocation; and for every n, n negative-confirmation
iterations followed by an affirmative one still succeed, so the number
of iterations is unbounded. -/
theorem reviewLoop_spec :
    (∀ (st : BranchState) (cs : List MenuChoice),
      (reviewLoop st cs).2.any Effect.isGitRun = true →
      ∃ name, (reviewLoop st cs).1 = .created name)
    ∧ (∀ (st : BranchState) (cs : List MenuChoice) (name : String),
        (reviewLoop st cs).1 = .created name → MenuChoice.confirmCreate true ∈ cs)
    ∧ (∀ (st : BranchState) (cs : List MenuChoice),
        (reviewLoop st (.confirmCreate true :: cs)).1 = .created (stateBranchName st)
        ∧ Effect.runGit ["checkout", "-b", stateBranchName st] ∈
            (reviewLoop st (.confirmCreate true :: cs)).2)
    ∧ (∀ (st : BranchState) (cs : List MenuChoice),
        (reviewLoop st (.confirmCreate false :: cs)).1 = (reviewLoop st cs).1)
    ∧ (∀ (st : BranchState) (cs : List MenuChoice) (v : String),
        (reviewLoop st (.editType v :: cs)).1 =
          (reviewLoop { st with branchType := v } cs).1
        ∧ (reviewLoop st (.editDesc v :: cs)).1 =
          (reviewLoop { st with description := replaceSpaces v } cs).1
        ∧ (reviewLoop st (.editTicket v :: cs)).1 =
          (reviewLoop { st with ticketID := v } cs).1)
    ∧ (∀ (st : BranchState) (cs : List MenuChoice),
        (reviewLoop st (.cancel :: cs)).1 = .cancelled
        ∧ (reviewLoop st (.cancel :: cs)).2.any Effect.isGitRun = false)
    ∧ (∀ (st : BranchState) (n : Nat),
        (reviewLoop st (List.replicate n (.confirmCreate false) ++
          [.confirmCreate true])).1 = .created (stateBranchName st)) := by
  refine ⟨reviewLoop_git_imp_created, reviewLoop_created_imp_confirm,
    ?_, ?_, ?_, ?_, reviewLoop_replicate_neg⟩
  · intro st cs
    constructor
    · simp [reviewLoop]
    · simp [reviewLoop]
  · intro st cs
    simp [reviewLoop]
  · intro st cs v
    refine ⟨?_, ?_, ?_⟩ <;> simp [reviewLoop]
  · intro st cs
    constructor
    · simp [reviewLoop]
    · simp [reviewLoop, Effect.isGitRun]

/-- Witness for C7: a one-interaction trace consisting of the Confirm
choice answered affirmatively creates the branch, and the created
outcome certifies the confirm choice is in the trace. -/
theorem reviewLoop_spec_witness :
    MenuChoice.confirmCreate true ∈ ([.confirmCreate true] : List MenuChoice)
    ∧ ∃ name, (reviewLoop ⟨"ds", "feat", "x", "T-1"⟩ [.confirmCreate true]).1 =
        .created name := by
  constructor
  · exact reviewLoop_spec.2.1 ⟨"ds", "feat", "x", "T-1"⟩ [.confirmCreate true]
      "ds-feat-x/T-1" (by rfl)
  · exact reviewLoop_spec.1 ⟨"ds", "feat", "x", "T-1"⟩ [.confirmCreate true]
      (by rfl)

end GitHelper
